import Mathlib

/-!
Promtail log-shipping client: batching loop, label builder, timestamp split.

A shallow embedding of the Go package `promtail`
(`json_client.go`, `protobuf_client.go`, `helpers.go`,
`clients_private_models.go`, `package_consts.go`).

Conventions of the embedding:

* Go `int` / `LogLevel` values are `Int`.  The only arithmetic on them is
  `batchSize++`; `batchSize_bounded` below shows that the counter never
  exceeds `max 1 BatchEntriesNumber`, so it cannot overflow.
* Go strings are Lean `String`s (valid UTF-8 text); `len` is the UTF-8 byte
  length.
* The goroutine `run` is a function from the sequence of events chosen by its
  `select` to the sequence of observable actions (`print`, `send`,
  timer `Reset`, `waitGroup.Done`) together with the loop state.
* `time.Now()`, `debug.Stack()` and the result of `fmt.Sprintf` are inputs.
-/

namespace Promtail

/-! ## package_consts.go -/

/-- Go: `type LogLevel int`. -/
abbrev LogLevel := Int

def Debug : LogLevel := 0
def Info : LogLevel := 1
def Warn : LogLevel := 2
def Error : LogLevel := 3
/-- Maximum level, disables sending or printing. -/
def Disable : LogLevel := 4

/-! ## clients_private_models.go -/

/-- Go: `ClientConfig`.  `BatchWait` is a `time.Duration` (nanoseconds). -/
structure ClientConfig where
  PushURL : String
  ServiceName : String
  Labels : String
  BatchWait : Int
  BatchEntriesNumber : Int
  SendLevel : LogLevel
  PrintLevel : LogLevel
  deriving DecidableEq

/-- Go: `Label`. -/
structure Label where
  Host : String
  Source : String
  Job : String
  deriving DecidableEq

/-- Go: `jsonLogEntry`; `Ts` is the `time.Time` of the call, as an instant in
nanoseconds. -/
structure jsonLogEntry where
  Ts : Int
  Line : String
  level : LogLevel
  deriving DecidableEq

/-- Go: `timestamp.Timestamp` (`Seconds int64`, `Nanos int32`). -/
structure Timestamp where
  Seconds : Int
  Nanos : Int
  deriving DecidableEq

/-- Go: `logproto.Entry`. -/
structure logprotoEntry where
  Timestamp : Timestamp
  Line : String
  deriving DecidableEq

/-- Go: `protoLogEntry`. -/
structure protoLogEntry where
  entry : logprotoEntry
  level : LogLevel
  deriving DecidableEq

/-! ## The client and the batching loop (`run`)

`clientJson.run` and `clientProto.run` are the same loop; they differ in the
entry type taken from the channel (`α`), in what is appended to the batch
(`β`: the whole `*jsonLogEntry`, respectively the inner `*logproto.Entry`)
and in the line that is printed.  `EntryKind` records these three
projections; the loop is written once over it and instantiated twice. -/

/-- The fields of `clientJson` / `clientProto` that `log` and `run` read:
the configuration, the debug flag and whether a logger was injected. -/
structure Client where
  config : ClientConfig
  isDebug : Bool
  hasLogger : Bool
  deriving DecidableEq

/-- What the loop reads from a channel element. -/
structure EntryKind (α β : Type) where
  level : α → LogLevel
  line : α → String
  payload : α → β

/-- Kind of `clientJson`: `entry.(*jsonLogEntry).level`, `.Line`, and the
entry itself is appended to the batch. -/
def jsonKind : EntryKind jsonLogEntry jsonLogEntry :=
  ⟨fun e => e.level, fun e => e.Line, fun e => e⟩

/-- Kind of `clientProto`: `entry.(*protoLogEntry).level`, `.entry.Line`, and
`.entry` is appended to the batch. -/
def protoKind : EntryKind protoLogEntry logprotoEntry :=
  ⟨fun e => e.level, fun e => e.entry.Line, fun e => e.entry⟩

/-- The event chosen by one `select` of the loop.  `entry none` is a receive
from `entries.Out()` with `ok = false`. -/
inductive Event (α : Type) where
  | quit : Event α
  | entry : Option α → Event α
  | timer : Event α
  deriving DecidableEq

/-- Observable actions of the loop, in program order. `print viaLogger line`
is `c.logger.Print(line)` when `viaLogger`, else `log.Print(line)`. -/
inductive Action (β : Type) where
  | print : Bool → String → Action β
  | send : List β → Action β
  | resetTimer : Action β
  | done : Action β
  deriving DecidableEq

/-- The local variables of `run`: `batch` and `batchSize`. -/
structure LoopState (β : Type) where
  batch : List β
  batchSize : Int
  deriving DecidableEq

/-- State at loop entry: `var batch []T; batchSize := 0`. -/
def LoopState.init {β : Type} : LoopState β := ⟨[], 0⟩

/-- The print block of the entry branch:
`if level >= c.config.PrintLevel && c.isDebug { ...Print(line) }`. -/
def printStep {α β : Type} (k : EntryKind α β) (c : Client) (e : α) : List (Action β) :=
  if k.level e ≥ c.config.PrintLevel && c.isDebug then
    [Action.print c.hasLogger (k.line e)]
  else []

/-- The `case entry, ok := <-c.entries.Out()` branch with `ok = true`. -/
def onEntry {α β : Type} (k : EntryKind α β) (c : Client) (s : LoopState β) (e : α) :
    LoopState β × List (Action β) :=
  if k.level e ≥ c.config.SendLevel then
    let batch := s.batch ++ [k.payload e]
    let batchSize := s.batchSize + 1
    if batchSize ≥ c.config.BatchEntriesNumber then
      (⟨[], 0⟩, printStep k c e ++ [Action.send batch, Action.resetTimer])
    else
      (⟨batch, batchSize⟩, printStep k c e)
  else
    (s, printStep k c e)

/-- The `case <-maxWait.C` branch. -/
def onTimer {β : Type} (s : LoopState β) : LoopState β × List (Action β) :=
  if s.batchSize > 0 then
    (⟨[], 0⟩, [Action.send s.batch, Action.resetTimer])
  else
    (s, [Action.resetTimer])

/-- The deferred function executed when `run` returns. -/
def onReturn {β : Type} (s : LoopState β) : List (Action β) :=
  if s.batchSize > 0 then [Action.send s.batch, Action.done] else [Action.done]

/-- Result of running the loop on a finite sequence of events: the actions
performed, and the loop state if `run` is still waiting in `select`
(`none` once `run` has returned). -/
structure Outcome (β : Type) where
  trace : List (Action β)
  state : Option (LoopState β)
  deriving DecidableEq

/-- The loop of `run` from state `s`.  On `quit` the function returns (the
deferred function runs, later events are never observed); when the events are
exhausted the goroutine is blocked in `select`. -/
def runFrom {α β : Type} (k : EntryKind α β) (c : Client) :
    LoopState β → List (Event α) → Outcome β
  | s, [] => ⟨[], some s⟩
  | s, Event.quit :: _ => ⟨onReturn s, none⟩
  | s, Event.entry none :: evs => runFrom k c s evs
  | s, Event.entry (some e) :: evs =>
      let r := runFrom k c (onEntry k c s e).1 evs
      ⟨(onEntry k c s e).2 ++ r.trace, r.state⟩
  | s, Event.timer :: evs =>
      let r := runFrom k c (onTimer s).1 evs
      ⟨(onTimer s).2 ++ r.trace, r.state⟩

/-- Go: `clientJson.run`. -/
def clientJson.run (c : Client) (evs : List (Event jsonLogEntry)) : Outcome jsonLogEntry :=
  runFrom jsonKind c LoopState.init evs

/-- Go: `clientProto.run`. -/
def clientProto.run (c : Client) (evs : List (Event protoLogEntry)) : Outcome logprotoEntry :=
  runFrom protoKind c LoopState.init evs

/-- The batches handed to `send`, in send order. -/
def sends {β : Type} : List (Action β) → List (List β)
  | [] => []
  | Action.send b :: as => b :: sends as
  | _ :: as => sends as

/-- The entries received (with `ok = true`) in a sequence of events, in
order. -/
def consumed {α : Type} : List (Event α) → List α
  | [] => []
  | Event.entry (some e) :: evs => e :: consumed evs
  | _ :: evs => consumed evs

/-- The events "entry `e` consumed" for a list of entries. -/
def entryEvents {α : Type} (es : List α) : List (Event α) :=
  es.map (fun e => Event.entry (some e))

/-! ## `log` (json_client.go, protobuf_client.go)

`now` is `time.Now()` (for `clientProto`: `time.Now().UnixNano()`), `line` is
the result of `fmt.Sprintf(c.concatStr(format, prefix), args...)`.  The result
is the value sent on `c.entries.In()`, or `none` when nothing is sent. -/

/-- Go: `clientJson.log`. -/
def clientJson.log (c : Client) (now : Int) (line : String) (level : LogLevel) :
    Option jsonLogEntry :=
  if level ≥ c.config.SendLevel ∨ level ≥ c.config.PrintLevel then
    some { Ts := now, Line := line, level := level }
  else none

/-- Go: `int64(time.Second)`. -/
def timeSecond : Int := 1000000000

/-- Go: the conversion `int32(x)` of a 64-bit integer (keeps the low 32 bits,
two's complement). -/
def toInt32 (x : Int) : Int := (x + 2 ^ 31) % 2 ^ 32 - 2 ^ 31

/-- Go: `clientProto.log`; `/` and `%` are Go's truncated division and
remainder. -/
def clientProto.log (c : Client) (now : Int) (line : String) (level : LogLevel) :
    Option protoLogEntry :=
  if level ≥ c.config.SendLevel ∨ level ≥ c.config.PrintLevel then
    some { entry := { Timestamp := { Seconds := now.tdiv timeSecond,
                                     Nanos := toInt32 (now.tmod timeSecond) },
                      Line := line },
           level := level }
  else none

/-! ## Regular expressions (Go `regexp`, RE2 syntax)

The standard library's matcher is not part of the repository; it is modelled
by its documented semantics.  `ends r s i` lists the positions `j` such that
`r` matches `s[i..j]`; `^` and `$` (no `m` flag) hold at the beginning and at
the end of the text only; `.` (no `s` flag) is any character but a newline;
`MatchString` reports whether the text contains any match. -/

/-- Abstract syntax of the patterns used in `helpers.go`. `rep lo hi r` is
`r{lo,hi}` (`hi = none`: unbounded), so `r+` is `rep 1 none r`, `r?` is
`rep 0 (some 1) r`. A class is a list of inclusive ranges. -/
inductive Regex where
  | bol : Regex
  | eol : Regex
  | any : Regex
  | cls : List (Char × Char) → Regex
  | seq : Regex → Regex → Regex
  | alt : Regex → Regex → Regex
  | rep : Nat → Option Nat → Regex → Regex

/-- Membership of a character in a class. -/
def inClass (rs : List (Char × Char)) (c : Char) : Bool :=
  rs.any (fun r => decide (r.1.toNat ≤ c.toNat) && decide (c.toNat ≤ r.2.toNat))

/-- Exactly `n` iterations of `f` from the positions `ps`. -/
def iterExact (f : Nat → List Nat) : Nat → List Nat → List Nat
  | 0, ps => ps
  | n + 1, ps => iterExact f n (ps.flatMap f)

/-- Between zero and `n` iterations of `f` from the positions `ps`. -/
def iterUpTo (f : Nat → List Nat) : Nat → List Nat → List Nat
  | 0, ps => ps
  | n + 1, ps => ps ++ iterUpTo f n (ps.flatMap f)

/-- End positions of the matches of `r` in `s` that start at position `i`.
For an unbounded repetition `s.length` further iterations suffice, since an
iteration that consumes nothing reaches no new position. -/
def Regex.ends (s : List Char) : Regex → Nat → List Nat
  | Regex.bol, i => if i = 0 then [i] else []
  | Regex.eol, i => if i = s.length then [i] else []
  | Regex.any, i =>
      match s.get? i with
      | some c => if c = '\n' then [] else [i + 1]
      | none => []
  | Regex.cls rs, i =>
      match s.get? i with
      | some c => if inClass rs c then [i + 1] else []
      | none => []
  | Regex.seq a b, i => (a.ends s i).flatMap (fun j => b.ends s j)
  | Regex.alt a b, i => a.ends s i ++ b.ends s i
  | Regex.rep lo hi a, i =>
      let first := iterExact (fun j => a.ends s j) lo [i]
      match hi with
      | none => iterUpTo (fun j => a.ends s j) s.length first
      | some h => iterUpTo (fun j => a.ends s j) (h - lo) first

/-- The step function of a one-character class: position `j` advances to
`j + 1` when the character at `j` is in the class. -/
def clsStep (rs : List (Char × Char)) (s : List Char) (j : Nat) : List Nat :=
  (Regex.cls rs).ends s j

/-- Go: `(*Regexp).MatchString`: the text contains a match of `r`. -/
def Regex.MatchString (r : Regex) (s : String) : Bool :=
  (List.range (s.data.length + 1)).any (fun i => !(r.ends s.data i).isEmpty)

/-- Concatenation of a list of expressions (at least one). -/
def Regex.cat : List Regex → Regex
  | [] => Regex.rep 0 (some 0) Regex.any
  | [r] => r
  | r :: rs => Regex.seq r (Regex.cat rs)

/-- A literal string as an expression. -/
def Regex.lit (s : String) : Regex :=
  Regex.cat (s.data.map (fun c => Regex.cls [(c, c)]))

/-! ## helpers.go -/

/-- The ranges of the class `[A-z-_0-9]`: the range `A`..`z`, `-`, `_`, the
range `0`..`9`. -/
def wordRanges : List (Char × Char) := [('A', 'z'), ('-', '-'), ('_', '_'), ('0', '9')]

/-- The class `[A-z-_0-9]`. -/
def clsWord : Regex := Regex.cls wordRanges

/-- The class `[A-z-_]`. -/
def clsName : Regex := Regex.cls [('A', 'z'), ('-', '-'), ('_', '_')]

/-- The class `[0-9]`. -/
def clsDigit : Regex := Regex.cls [('0', '9')]

/-- Go: `pattern = regexp.MustCompile("^[A-z-_0-9]+$")`. -/
def pattern : Regex :=
  Regex.cat [Regex.bol, Regex.rep 1 none clsWord, Regex.eol]

/-- The sub-expression `(25[0-5]|2[0-4][0-9]|[01]?[0-9][0-9]?)`. -/
def reOctet : Regex :=
  Regex.alt (Regex.cat [Regex.lit "25", Regex.cls [('0', '5')]])
    (Regex.alt (Regex.cat [Regex.lit "2", Regex.cls [('0', '4')], clsDigit])
      (Regex.cat [Regex.rep 0 (some 1) (Regex.cls [('0', '1')]), clsDigit,
        Regex.rep 0 (some 1) clsDigit]))

/-- The sub-expression `[A-z-_]+:?[0-9].`. -/
def reNamePort : Regex :=
  Regex.cat [Regex.rep 1 none clsName, Regex.rep 0 (some 1) (Regex.lit ":"), clsDigit, Regex.any]

/-- Go: `patternHostOrIP`, the pattern
`^(https?://[A-z-_]+:?[0-9].)|([A-z-_]+:?[0-9].)|((OCTET)(\.(OCTET)){3}:?[0-9]{2,})$`.
Alternation binds weakest: `^` belongs to the first alternative only and `$`
to the third only. -/
def patternHostOrIP : Regex :=
  Regex.alt
    (Regex.cat [Regex.bol, Regex.lit "http", Regex.rep 0 (some 1) (Regex.lit "s"),
      Regex.lit "://", reNamePort])
    (Regex.alt reNamePort
      (Regex.cat [reOctet, Regex.rep 3 (some 3) (Regex.seq (Regex.lit ".") reOctet),
        Regex.rep 0 (some 1) (Regex.lit ":"), Regex.rep 2 none clsDigit, Regex.eol]))

/-- Go: `patternVersion = regexp.MustCompile("^[0-9]{1,2}\.[0-9]{1,2}\.[0-9]{1,3}$")`. -/
def patternVersion : Regex :=
  Regex.cat [Regex.bol, Regex.rep 1 (some 2) clsDigit, Regex.lit ".",
    Regex.rep 1 (some 2) clsDigit, Regex.lit ".", Regex.rep 1 (some 3) clsDigit, Regex.eol]

/-- Go: `sourceAndJobValidator`. -/
def sourceAndJobValidator (word : String) : Bool := pattern.MatchString word

/-- Go: `versionValidator`. -/
def versionValidator (ver : String) : Bool := patternVersion.MatchString ver

/-- Go: `hostOrIPValidator`. -/
def hostOrIPValidator (addr : String) : Bool := patternHostOrIP.MatchString addr

/-- Go: `LabelBuilder`.  `label = none` is the nil pointer; `stack` is
`string(debug.Stack())`; the result is the pair `(string, error)`, the error
given by its message (`none` for `nil`). -/
def LabelBuilder (label : Option Label) (stack : String) : String × Option String :=
  match label with
  | none =>
      ("", some ("promtail_:_helpers_:_labelBuilder_: error: empty \x27label\x27 parameter, stack: " ++ stack))
  | some label =>
      if !hostOrIPValidator label.Host then
        ("", some ("promtail_:_helpers_:_labelBuilder_: error: invalid label \x27host\x27, stack: " ++ stack))
      else if !sourceAndJobValidator label.Source then
        ("", some ("promtail_:_helpers_:_labelBuilder_: error: invalid label \x27source\x27, stack: " ++ stack))
      else if !sourceAndJobValidator label.Job then
        ("", some ("promtail_:_helpers_:_labelBuilder_: error: invalid label \x27job\x27, stack: " ++ stack))
      else
        ("\x7bhost=\"" ++ label.Host ++ "\",source=\"" ++ label.Source ++ "\",job=\"" ++ label.Job ++ "\"\x7d", none)

/-! ## Label amendment (`SetVersion`, `SetServiceName`)

`strings.Replace(s, old, new, n)` is modelled by its documentation: a copy of
`s` with the first `n` non-overlapping instances of `old` replaced by `new`;
no limit when `n < 0`; an empty `old` matches before each character and at
the end. -/

/-- Replace the first `n` instances of a non-empty `old`, scanning left to
right; `skip` counts the characters of a replaced instance still to drop. -/
def replaceFirst (old new : List Char) : Nat → Nat → List Char → List Char
  | _, _, [] => []
  | skip + 1, n, _ :: cs => replaceFirst old new skip n cs
  | 0, 0, c :: cs => c :: cs
  | 0, n + 1, c :: cs =>
      if old.isPrefixOf (c :: cs) then
        new ++ replaceFirst old new (old.length - 1) n cs
      else
        c :: replaceFirst old new 0 (n + 1) cs

/-- Insert `new` before each of the first `n` positions (empty `old`). -/
def insertFirst (new : List Char) : Nat → List Char → List Char
  | 0, s => s
  | _ + 1, [] => new
  | n + 1, c :: cs => new ++ c :: insertFirst new n cs

/-- Go: `strings.Replace`. -/
def stringsReplace (s old new : String) (n : Int) : String :=
  if old = new ∨ n = 0 then s
  else
    let limit : Nat := if n < 0 then s.data.length + 1 else n.toNat
    if old.data = [] then String.mk (insertFirst new.data limit s.data)
    else String.mk (replaceFirst old.data new.data 0 limit s.data)

/-- Go: `len(s)`, the number of bytes of `s`. -/
def len (s : String) : Int := s.utf8ByteSize

/-- Go: `clientJson.SetVersion`. -/
def clientJson.SetVersion (c : Client) (version : String) : Client :=
  { c with config := { c.config with
      Labels := stringsReplace c.config.Labels "\x7d" (",version=\"" ++ version ++ "\"\x7d")
        (len c.config.Labels - 1) } }

/-- Go: `clientJson.SetServiceName`. -/
def clientJson.SetServiceName (c : Client) (serviceName : String) : Client :=
  { c with config := { c.config with
      Labels := stringsReplace c.config.Labels "\x7d" (",service_name=\"" ++ serviceName ++ "\"\x7d")
        (len c.config.Labels - 1) } }

/-- Go: `clientProto.SetVersion`. -/
def clientProto.SetVersion (c : Client) (version : String) : Client :=
  { c with config := { c.config with
      Labels := stringsReplace c.config.Labels "\x7d" (",version=\"" ++ version ++ "\"\x7d")
        (len c.config.Labels - 1) } }

/-- Go: `clientProto.SetServiceName`. -/
def clientProto.SetServiceName (c : Client) (serviceName : String) : Client :=
  { c with config := { c.config with
      Labels := stringsReplace c.config.Labels "\x7d" (",service_name=\"" ++ serviceName ++ "\"\x7d")
        (len c.config.Labels - 1) } }

/-! ## Observations used in the statements, and concrete inputs -/

/-- Some `Print` call occurs among the actions. -/
def printed {β : Type} (out : List (Action β)) : Bool :=
  out.any (fun a => match a with
    | Action.print _ _ => true
    | _ => false)

/-- The step `r` taken from state `s` appended `x` to the batch: the batch is
now the old one followed by `x`, or that batch has been handed to `send`. -/
def appended {β : Type} [DecidableEq β] (s : LoopState β) (x : β)
    (r : LoopState β × List (Action β)) : Bool :=
  decide (r.1.batch = s.batch ++ [x]) || decide (Action.send (s.batch ++ [x]) ∈ r.2)

/-- A client with batch-size threshold 2, ship threshold `Info`, print
threshold `Debug`, debug mode on. -/
def exClient : Client :=
  { config := { PushURL := "http://loki:3100/api/prom/push", ServiceName := "svc",
                Labels := "", BatchWait := 5000000000, BatchEntriesNumber := 2,
                SendLevel := Info, PrintLevel := Debug },
    isDebug := true, hasLogger := false }

/-- The same client with debug mode off, print threshold `Debug` and ship
threshold `Error`. -/
def exQuietClient : Client :=
  { config := { PushURL := "http://loki:3100/api/prom/push", ServiceName := "svc",
                Labels := "", BatchWait := 5000000000, BatchEntriesNumber := 2,
                SendLevel := Error, PrintLevel := Debug },
    isDebug := false, hasLogger := false }

def exJsonDebug : jsonLogEntry := { Ts := 1, Line := "Debug: a", level := Debug }
def exJsonInfo : jsonLogEntry := { Ts := 2, Line := "Info: b", level := Info }
def exJsonWarn : jsonLogEntry := { Ts := 3, Line := "Warn: c", level := Warn }

def exProtoDebug : protoLogEntry :=
  { entry := { Timestamp := { Seconds := 0, Nanos := 1 }, Line := "Debug: a" }, level := Debug }
def exProtoInfo : protoLogEntry :=
  { entry := { Timestamp := { Seconds := 0, Nanos := 2 }, Line := "Info: b" }, level := Info }
def exProtoWarn : protoLogEntry :=
  { entry := { Timestamp := { Seconds := 0, Nanos := 3 }, Line := "Warn: c" }, level := Warn }

/-- A label whose three fields pass validation. -/
def exLabel : Label := { Host := "localhost:3100", Source := "app", Job := "job-1" }

/-- A label whose host and source are both invalid. -/
def exBadLabel : Label := { Host := "", Source := "a b", Job := "job-1" }

/-- A label accepted by `LabelBuilder` whose host ends in a closing brace. -/
def exBraceLabel : Label := { Host := "loki:3100\x7d", Source := "app", Job := "job-1" }

/-- A client whose label string is `labels`. -/
def exClientWith (labels : String) : Client :=
  { exClient with config := { exClient.config with Labels := labels } }

/-! ## Lemmas on the batching loop -/

theorem sends_append {β : Type} (a b : List (Action β)) :
    sends (a ++ b) = sends a ++ sends b := by
  induction a with
  | nil => rfl
  | cons x xs ih => cases x <;> simp [sends, ih]

/-- The print block performs no send. -/
theorem sends_printStep {α β : Type} (k : EntryKind α β) (c : Client) (e : α) :
    sends (printStep k c e : List (Action β)) = [] := by
  unfold printStep
  split <;> rfl

theorem onEntry_flush {α β : Type} (k : EntryKind α β) (c : Client) (s : LoopState β) (e : α)
    (h1 : k.level e ≥ c.config.SendLevel)
    (h2 : s.batchSize + 1 ≥ c.config.BatchEntriesNumber) :
    onEntry k c s e =
      (⟨[], 0⟩, printStep k c e ++ [Action.send (s.batch ++ [k.payload e]), Action.resetTimer]) := by
  simp only [onEntry, if_pos h1, if_pos h2]

theorem onEntry_keep {α β : Type} (k : EntryKind α β) (c : Client) (s : LoopState β) (e : α)
    (h1 : k.level e ≥ c.config.SendLevel)
    (h2 : ¬ s.batchSize + 1 ≥ c.config.BatchEntriesNumber) :
    onEntry k c s e = (⟨s.batch ++ [k.payload e], s.batchSize + 1⟩, printStep k c e) := by
  simp only [onEntry, if_pos h1, if_neg h2]

theorem onEntry_skip {α β : Type} (k : EntryKind α β) (c : Client) (s : LoopState β) (e : α)
    (h1 : ¬ k.level e ≥ c.config.SendLevel) :
    onEntry k c s e = (s, printStep k c e) := by
  simp only [onEntry, if_neg h1]

/-- Effect of one received entry on a state whose counter equals the batch
length: the counter still equals the length, and what has been sent followed
by what is pending is the old batch followed by the entry if it ships. -/
theorem onEntry_spec {α β : Type} (k : EntryKind α β) (c : Client) (s : LoopState β) (e : α)
    (hs : s.batchSize = s.batch.length) :
    (onEntry k c s e).1.batchSize = (onEntry k c s e).1.batch.length ∧
    (sends (onEntry k c s e).2).flatten ++ (onEntry k c s e).1.batch =
      s.batch ++ (if k.level e ≥ c.config.SendLevel then [k.payload e] else []) := by
  by_cases h1 : k.level e ≥ c.config.SendLevel
  · by_cases h2 : s.batchSize + 1 ≥ c.config.BatchEntriesNumber
    · rw [onEntry_flush k c s e h1 h2]
      simp [h1, sends_append, sends_printStep, sends]
    · rw [onEntry_keep k c s e h1 h2]
      simp [h1, sends_printStep, hs]
  · rw [onEntry_skip k c s e h1]
    simp [h1, sends_printStep, hs]

theorem onTimer_flush {β : Type} (s : LoopState β) (h : s.batchSize > 0) :
    onTimer s = (⟨[], 0⟩, [Action.send s.batch, Action.resetTimer]) := by
  simp only [onTimer, if_pos h]

theorem onTimer_idle {β : Type} (s : LoopState β) (h : ¬ s.batchSize > 0) :
    onTimer s = (s, [Action.resetTimer]) := by
  simp only [onTimer, if_neg h]

theorem onTimer_spec {β : Type} (s : LoopState β) (hs : s.batchSize = s.batch.length) :
    (onTimer s).1.batchSize = (onTimer s).1.batch.length ∧
    (sends (onTimer s).2).flatten ++ (onTimer s).1.batch = s.batch := by
  by_cases h : s.batchSize > 0
  · rw [onTimer_flush s h]
    simp [sends]
  · rw [onTimer_idle s h]
    simp [sends, hs]

theorem onReturn_spec {β : Type} (s : LoopState β) (hs : s.batchSize = s.batch.length) :
    (sends (onReturn s)).flatten = s.batch := by
  unfold onReturn
  by_cases h : s.batchSize > 0
  · simp [h, sends]
  · have h0 : s.batch.length = 0 := by omega
    simp [h, sends, List.length_eq_zero.mp h0]

theorem runFrom_nil {α β : Type} (k : EntryKind α β) (c : Client) (s : LoopState β) :
    runFrom k c s [] = ⟨[], some s⟩ := rfl

theorem runFrom_quit {α β : Type} (k : EntryKind α β) (c : Client) (s : LoopState β)
    (evs : List (Event α)) :
    runFrom k c s (Event.quit :: evs) = ⟨onReturn s, none⟩ := rfl

theorem runFrom_closed {α β : Type} (k : EntryKind α β) (c : Client) (s : LoopState β)
    (evs : List (Event α)) :
    runFrom k c s (Event.entry none :: evs) = runFrom k c s evs := rfl

theorem runFrom_entry {α β : Type} (k : EntryKind α β) (c : Client) (s : LoopState β)
    (e : α) (evs : List (Event α)) :
    runFrom k c s (Event.entry (some e) :: evs) =
      ⟨(onEntry k c s e).2 ++ (runFrom k c (onEntry k c s e).1 evs).trace,
        (runFrom k c (onEntry k c s e).1 evs).state⟩ := rfl

theorem runFrom_timer {α β : Type} (k : EntryKind α β) (c : Client) (s : LoopState β)
    (evs : List (Event α)) :
    runFrom k c s (Event.timer :: evs) =
      ⟨(onTimer s).2 ++ (runFrom k c (onTimer s).1 evs).trace,
        (runFrom k c (onTimer s).1 evs).state⟩ := rfl

/-- Conservation of shipped entries: from a state whose counter equals the
batch length, events without `quit` followed by `quit` make `run` return, and
the sent batches concatenate to the pending batch followed by the consumed
entries that pass the ship threshold. -/
theorem runFrom_quit_sends {α β : Type} (k : EntryKind α β) (c : Client) :
    ∀ (evs : List (Event α)) (s : LoopState β), s.batchSize = s.batch.length →
      Event.quit ∉ evs →
      (runFrom k c s (evs ++ [Event.quit])).state = none ∧
      (sends (runFrom k c s (evs ++ [Event.quit])).trace).flatten =
        s.batch ++ ((consumed evs).filter (fun e => k.level e ≥ c.config.SendLevel)).map k.payload := by
  intro evs
  induction evs with
  | nil =>
    intro s hs _
    simp [runFrom_quit, consumed, onReturn_spec s hs]
  | cons ev evs ih =>
    intro s hs hq
    have hq1 : Event.quit ∉ evs := fun h => hq (List.mem_cons_of_mem _ h)
    cases ev with
    | quit => exact absurd (List.mem_cons_self _ _) hq
    | timer =>
      obtain ⟨h1, h2⟩ := onTimer_spec s hs
      obtain ⟨i1, i2⟩ := ih (onTimer s).1 h1 hq1
      rw [List.cons_append, runFrom_timer]
      refine ⟨i1, ?_⟩
      simp only [sends_append, List.flatten_append, i2, consumed]
      rw [← List.append_assoc, h2]
    | entry o =>
      cases o with
      | none =>
        rw [List.cons_append, runFrom_closed]
        simpa [consumed] using ih s hs hq1
      | some e =>
        obtain ⟨h1, h2⟩ := onEntry_spec k c s e hs
        obtain ⟨i1, i2⟩ := ih (onEntry k c s e).1 h1 hq1
        rw [List.cons_append, runFrom_entry]
        refine ⟨i1, ?_⟩
        simp only [sends_append, List.flatten_append, i2, consumed]
        rw [← List.append_assoc, h2]
        by_cases hl : k.level e ≥ c.config.SendLevel
        · simp [List.filter_cons, hl]
        · simp [List.filter_cons, hl]

/-- Running a sequence of events that leaves the loop waiting, then more
events, is running the second sequence from the state reached. -/
theorem runFrom_append {α β : Type} (k : EntryKind α β) (c : Client) (evs2 : List (Event α)) :
    ∀ (evs : List (Event α)) (s s1 : LoopState β), (runFrom k c s evs).state = some s1 →
      runFrom k c s (evs ++ evs2) =
        ⟨(runFrom k c s evs).trace ++ (runFrom k c s1 evs2).trace, (runFrom k c s1 evs2).state⟩ := by
  intro evs
  induction evs with
  | nil =>
    intro s s1 h
    rw [runFrom_nil] at h
    cases h
    simp [runFrom_nil]
  | cons ev evs ih =>
    intro s s1 h
    cases ev with
    | quit => rw [runFrom_quit] at h; cases h
    | timer =>
      rw [runFrom_timer] at h
      rw [List.cons_append, runFrom_timer, runFrom_timer, ih _ _ h]
      simp
    | entry o =>
      cases o with
      | none =>
        rw [runFrom_closed] at h
        rw [List.cons_append, runFrom_closed, runFrom_closed, ih _ _ h]
      | some e =>
        rw [runFrom_entry] at h
        rw [List.cons_append, runFrom_entry, runFrom_entry, ih _ _ h]
        simp

/-- Invariant of the loop: the counter equals the length of the batch, and
it is zero or below the batch-size threshold. -/
theorem runFrom_invariant {α β : Type} (k : EntryKind α β) (c : Client) :
    ∀ (evs : List (Event α)) (s s1 : LoopState β),
      s.batchSize = s.batch.length →
      (s.batchSize = 0 ∨ s.batchSize < c.config.BatchEntriesNumber) →
      (runFrom k c s evs).state = some s1 →
      s1.batchSize = s1.batch.length ∧
      (s1.batchSize = 0 ∨ s1.batchSize < c.config.BatchEntriesNumber) := by
  intro evs
  induction evs with
  | nil =>
    intro s s1 hs hb h
    rw [runFrom_nil] at h
    cases h
    exact ⟨hs, hb⟩
  | cons ev evs ih =>
    intro s s1 hs hb h
    cases ev with
    | quit => rw [runFrom_quit] at h; cases h
    | timer =>
      rw [runFrom_timer] at h
      refine ih _ _ (onTimer_spec s hs).1 ?_ h
      by_cases h0 : s.batchSize > 0
      · rw [onTimer_flush s h0]; exact Or.inl rfl
      · rw [onTimer_idle s h0]; exact hb
    | entry o =>
      cases o with
      | none =>
        rw [runFrom_closed] at h
        exact ih _ _ hs hb h
      | some e =>
        rw [runFrom_entry] at h
        refine ih _ _ (onEntry_spec k c s e hs).1 ?_ h
        by_cases h1 : k.level e ≥ c.config.SendLevel
        · by_cases h2 : s.batchSize + 1 ≥ c.config.BatchEntriesNumber
          · rw [onEntry_flush k c s e h1 h2]; exact Or.inl rfl
          · rw [onEntry_keep k c s e h1 h2]; exact Or.inr (by simpa using h2)
        · rw [onEntry_skip k c s e h1]; exact hb

/-- The counter of `run` never overflows: in every state of the loop it is
the length of the batch and at most `max 0 (BatchEntriesNumber - 1)`, so the
increment `batchSize++` yields at most `max 1 BatchEntriesNumber`. -/
theorem batchSize_bounded {α β : Type} (k : EntryKind α β) (c : Client)
    (evs : List (Event α)) (s : LoopState β)
    (h : (runFrom k c LoopState.init evs).state = some s) :
    s.batchSize = s.batch.length ∧ 0 ≤ s.batchSize ∧
      s.batchSize + 1 ≤ max 1 c.config.BatchEntriesNumber := by
  obtain ⟨h1, h2⟩ := runFrom_invariant k c evs LoopState.init s rfl (Or.inl rfl) h
  refine ⟨h1, by omega, ?_⟩
  rcases h2 with h2 | h2
  · rw [h2]; exact le_max_left _ _
  · exact le_trans (by omega) (le_max_right _ _)

/-- Entries received while the number of shipped ones stays below the
threshold: nothing is sent, and the shipped entries are appended in order. -/
theorem runFrom_entries_below {α β : Type} (k : EntryKind α β) (c : Client) :
    ∀ (es : List α) (s : LoopState β),
      s.batchSize + ((es.filter (fun e => k.level e ≥ c.config.SendLevel)).length : Int)
        < c.config.BatchEntriesNumber →
      sends (runFrom k c s (entryEvents es)).trace = [] ∧
      (runFrom k c s (entryEvents es)).state =
        some ⟨s.batch ++ (es.filter (fun e => k.level e ≥ c.config.SendLevel)).map k.payload,
          s.batchSize + ((es.filter (fun e => k.level e ≥ c.config.SendLevel)).length : Int)⟩ := by
  intro es
  induction es with
  | nil =>
    intro s _
    simp [entryEvents, runFrom_nil, sends]
  | cons e es ih =>
    intro s h
    simp only [entryEvents, List.map_cons] at ih ⊢
    rw [runFrom_entry]
    by_cases h1 : k.level e ≥ c.config.SendLevel
    · have hf : (e :: es).filter (fun e => decide (k.level e ≥ c.config.SendLevel)) =
          e :: es.filter (fun e => decide (k.level e ≥ c.config.SendLevel)) := by
        simp [List.filter_cons, h1]
      rw [hf] at h ⊢
      simp only [List.length_cons, Nat.cast_add, Nat.cast_one] at h ⊢
      have h2 : ¬ s.batchSize + 1 ≥ c.config.BatchEntriesNumber := by omega
      rw [onEntry_keep k c s e h1 h2]
      obtain ⟨i1, i2⟩ := ih ⟨s.batch ++ [k.payload e], s.batchSize + 1⟩ (by show s.batchSize + 1 + _ < _; omega)
      refine ⟨by simp [sends_append, sends_printStep, i1], ?_⟩
      simp only [i2, List.map_cons, List.append_assoc, List.singleton_append]
      congr 2
      omega
    · have hf : (e :: es).filter (fun e => decide (k.level e ≥ c.config.SendLevel)) =
          es.filter (fun e => decide (k.level e ≥ c.config.SendLevel)) := by
        simp [List.filter_cons, h1]
      rw [hf] at h ⊢
      rw [onEntry_skip k c s e h1]
      obtain ⟨i1, i2⟩ := ih s h
      exact ⟨by simp [sends_append, sends_printStep, i1], i2⟩

/-- The previous lemma from the initial state. -/
theorem runFrom_entries_below_init {α β : Type} (k : EntryKind α β) (c : Client) (es : List α)
    (h : ((es.filter (fun e => k.level e ≥ c.config.SendLevel)).length : Int)
      < c.config.BatchEntriesNumber) :
    sends (runFrom k c LoopState.init (entryEvents es)).trace = [] ∧
    (runFrom k c LoopState.init (entryEvents es)).state =
      some ⟨(es.filter (fun e => k.level e ≥ c.config.SendLevel)).map k.payload,
        ((es.filter (fun e => k.level e ≥ c.config.SendLevel)).length : Int)⟩ := by
  have h0 := runFrom_entries_below k c es LoopState.init (by show (0 : Int) + _ < _; omega)
  refine ⟨h0.1, ?_⟩
  rw [h0.2]
  show some (LoopState.mk ([] ++ _) (0 + _)) = _
  rw [List.nil_append, zero_add]

/-- Threshold flush, for either client kind: when the last of the received
entries is the one that brings the number of shipped entries to the
threshold, nothing is sent before it and consuming it sends the whole batch
and empties it. -/
theorem runFrom_threshold {α β : Type} (k : EntryKind α β) (c : Client)
    (pre : List α) (last : α) (hl : k.level last ≥ c.config.SendLevel)
    (hn : (((pre ++ [last]).filter (fun e => k.level e ≥ c.config.SendLevel)).length : Int)
      = c.config.BatchEntriesNumber) :
    sends (runFrom k c LoopState.init (entryEvents pre)).trace = [] ∧
    (∃ s, (runFrom k c LoopState.init (entryEvents pre)).state = some s ∧
      onEntry k c s last =
        (⟨[], 0⟩, printStep k c last ++
          [Action.send (((pre ++ [last]).filter (fun e => k.level e ≥ c.config.SendLevel)).map
            k.payload), Action.resetTimer])) ∧
    sends (runFrom k c LoopState.init (entryEvents (pre ++ [last]))).trace =
      [((pre ++ [last]).filter (fun e => k.level e ≥ c.config.SendLevel)).map k.payload] ∧
    (runFrom k c LoopState.init (entryEvents (pre ++ [last]))).state = some ⟨[], 0⟩ := by
  have hf : (pre ++ [last]).filter (fun e => decide (k.level e ≥ c.config.SendLevel)) =
      pre.filter (fun e => decide (k.level e ≥ c.config.SendLevel)) ++ [last] := by
    simp [List.filter_append, List.filter_cons, hl]
  rw [hf] at hn ⊢
  simp only [List.length_append, List.length_singleton, Nat.cast_add, Nat.cast_one] at hn
  obtain ⟨i1, i2⟩ := runFrom_entries_below_init k c pre (by omega)
  have hflush := onEntry_flush k c
    ⟨(pre.filter (fun e => decide (k.level e ≥ c.config.SendLevel))).map k.payload,
      ((pre.filter (fun e => decide (k.level e ≥ c.config.SendLevel))).length : Int)⟩
    last hl (by simp only []; omega)
  have hb : (pre.filter (fun e => decide (k.level e ≥ c.config.SendLevel))).map k.payload ++
        [k.payload last] =
      (pre.filter (fun e => decide (k.level e ≥ c.config.SendLevel)) ++ [last]).map k.payload := by
    rw [List.map_append, List.map_singleton]
  rw [hb] at hflush
  have happ := runFrom_append k c [Event.entry (some last)] (entryEvents pre) LoopState.init _ i2
  have hev : entryEvents (pre ++ [last]) = entryEvents pre ++ [Event.entry (some last)] := by
    unfold entryEvents
    rw [List.map_append, List.map_singleton]
  refine ⟨i1, ⟨_, i2, hflush⟩, ?_, ?_⟩
  · rw [hev, happ, runFrom_entry, hflush]
    show sends (_ ++ ((_ ++ _) ++ (runFrom k c _ []).trace)) = _
    rw [runFrom_nil, sends_append, sends_append, sends_append, i1, sends_printStep]
    rfl
  · rw [hev, happ, runFrom_entry, hflush]
    rfl

/-- Timer flush, for either client kind: fewer shipped entries than the
threshold are not sent while they are received; the timer event then sends
them all in one batch (nothing if there is none) and leaves the batch
empty. -/
theorem runFrom_timer_flush {α β : Type} (k : EntryKind α β) (c : Client) (es : List α)
    (hall : ∀ e ∈ es, k.level e ≥ c.config.SendLevel)
    (hn : (es.length : Int) < c.config.BatchEntriesNumber) :
    sends (runFrom k c LoopState.init (entryEvents es)).trace = [] ∧
    sends (runFrom k c LoopState.init (entryEvents es ++ [Event.timer])).trace =
      (if es.isEmpty then [] else [es.map k.payload]) ∧
    (runFrom k c LoopState.init (entryEvents es ++ [Event.timer])).state = some ⟨[], 0⟩ := by
  have hf : es.filter (fun e => decide (k.level e ≥ c.config.SendLevel)) = es := by
    rw [List.filter_eq_self]
    intro e he
    simpa using hall e he
  obtain ⟨i1, i2⟩ := runFrom_entries_below_init k c es (by rw [hf]; exact hn)
  rw [hf] at i2
  have happ := runFrom_append k c [Event.timer] (entryEvents es) LoopState.init _ i2
  rw [happ, runFrom_timer]
  refine ⟨i1, ?_, ?_⟩
  · show sends (_ ++ (_ ++ (runFrom k c _ []).trace)) = _
    rw [runFrom_nil, sends_append, sends_append, i1]
    cases es with
    | nil => rfl
    | cons e es =>
      rw [onTimer_flush _ (by show ((e :: es).length : Int) > 0
                              simp only [List.length_cons]; omega)]
      rfl
  · show (runFrom k c _ []).state = _
    rw [runFrom_nil]
    cases es with
    | nil => rfl
    | cons e es =>
      rw [onTimer_flush _ (by show ((e :: es).length : Int) > 0
                              simp only [List.length_cons]; omega)]

/-- Drain on quit, for either client kind: from any state the loop reaches,
the quit event sends the pending batch once if it is not empty, then signals
completion, and `run` returns. -/
theorem runFrom_drain {α β : Type} (k : EntryKind α β) (c : Client)
    (evs : List (Event α)) (s : LoopState β)
    (h : (runFrom k c LoopState.init evs).state = some s) :
    s.batchSize = s.batch.length ∧
    runFrom k c LoopState.init (evs ++ [Event.quit]) =
      ⟨(runFrom k c LoopState.init evs).trace ++
        (if s.batch.isEmpty then [Action.done] else [Action.send s.batch, Action.done]), none⟩ := by
  obtain ⟨h1, _⟩ := runFrom_invariant k c evs LoopState.init s rfl (Or.inl rfl) h
  refine ⟨h1, ?_⟩
  rw [runFrom_append k c [Event.quit] evs LoopState.init s h, runFrom_quit]
  unfold onReturn
  cases hb : s.batch with
  | nil =>
    have : ¬ s.batchSize > 0 := by rw [h1, hb]; simp
    simp [this]
  | cons x xs =>
    have : s.batchSize > 0 := by rw [h1, hb]; simp only [List.length_cons]; omega
    simp [this]

/-! ## The batching loop: claims C1 to C4 -/

/-- C1: for every client configuration (every batch-size threshold, every
ship threshold) and every finite sequence of entry and timer events followed
by one quit event, `run` returns, and the concatenation of all batches handed
to `send`, in send order and including the final send made on quit, is the
subsequence of the consumed entries whose level is at least `SendLevel`, in
consumption order.  Stated for `clientJson.run` and for `clientProto.run`
(whose batches hold the inner wire entries). -/
theorem C1_sent_batches_are_the_shipped_entries (c : Client)
    (evsJ : List (Event jsonLogEntry)) (evsP : List (Event protoLogEntry))
    (hJ : Event.quit ∉ evsJ) (hP : Event.quit ∉ evsP) :
    ((clientJson.run c (evsJ ++ [Event.quit])).state = none ∧
      (sends (clientJson.run c (evsJ ++ [Event.quit])).trace).flatten =
        (consumed evsJ).filter (fun e => e.level ≥ c.config.SendLevel)) ∧
    ((clientProto.run c (evsP ++ [Event.quit])).state = none ∧
      (sends (clientProto.run c (evsP ++ [Event.quit])).trace).flatten =
        ((consumed evsP).filter (fun e => e.level ≥ c.config.SendLevel)).map
          (fun e => e.entry)) := by
  refine ⟨?_, ?_⟩
  · have h := runFrom_quit_sends jsonKind c evsJ LoopState.init rfl hJ
    refine ⟨h.1, ?_⟩
    unfold clientJson.run
    rw [h.2]
    simp [LoopState.init, jsonKind]
  · have h := runFrom_quit_sends protoKind c evsP LoopState.init rfl hP
    refine ⟨h.1, ?_⟩
    unfold clientProto.run
    rw [h.2]
    simp [LoopState.init, protoKind]

/-- C1 at a concrete run: threshold 2, ship threshold `Info`, the events
Debug, Info, timer, Warn, Info, Warn, then quit. -/
theorem C1_sent_batches_are_the_shipped_entries_witness :
    Event.quit ∉ [Event.entry (some exJsonDebug), Event.entry (some exJsonInfo), Event.timer,
      Event.entry (some exJsonWarn), Event.entry (some exJsonInfo),
      Event.entry (some exJsonWarn)] ∧
    Event.quit ∉ [Event.entry (some exProtoDebug), Event.entry (some exProtoInfo), Event.timer,
      Event.entry (some exProtoWarn), Event.entry (some exProtoInfo),
      Event.entry (some exProtoWarn)] ∧
    ((clientJson.run exClient ([Event.entry (some exJsonDebug), Event.entry (some exJsonInfo),
        Event.timer, Event.entry (some exJsonWarn), Event.entry (some exJsonInfo),
        Event.entry (some exJsonWarn)] ++ [Event.quit])).state = none ∧
      (sends (clientJson.run exClient ([Event.entry (some exJsonDebug),
        Event.entry (some exJsonInfo), Event.timer, Event.entry (some exJsonWarn),
        Event.entry (some exJsonInfo), Event.entry (some exJsonWarn)]
          ++ [Event.quit])).trace).flatten =
        (consumed [Event.entry (some exJsonDebug), Event.entry (some exJsonInfo), Event.timer,
          Event.entry (some exJsonWarn), Event.entry (some exJsonInfo),
          Event.entry (some exJsonWarn)]).filter
            (fun e => e.level ≥ exClient.config.SendLevel)) ∧
    ((clientProto.run exClient ([Event.entry (some exProtoDebug), Event.entry (some exProtoInfo),
        Event.timer, Event.entry (some exProtoWarn), Event.entry (some exProtoInfo),
        Event.entry (some exProtoWarn)] ++ [Event.quit])).state = none ∧
      (sends (clientProto.run exClient ([Event.entry (some exProtoDebug),
        Event.entry (some exProtoInfo), Event.timer, Event.entry (some exProtoWarn),
        Event.entry (some exProtoInfo), Event.entry (some exProtoWarn)]
          ++ [Event.quit])).trace).flatten =
        ((consumed [Event.entry (some exProtoDebug), Event.entry (some exProtoInfo), Event.timer,
          Event.entry (some exProtoWarn), Event.entry (some exProtoInfo),
          Event.entry (some exProtoWarn)]).filter
            (fun e => e.level ≥ exClient.config.SendLevel)).map (fun e => e.entry)) :=
  ⟨by decide, by decide,
    C1_sent_batches_are_the_shipped_entries exClient _ _ (by decide) (by decide)⟩

/-- C2: for every batch-size threshold `T` (necessarily at least 1 here) and
every sequence of consumed entries, processed by `run` from the empty batch
with no timer or quit event in between, in which exactly `T` entries have
level at least `SendLevel` and the last entry is one of them: no send occurs
before the last entry; consuming the last entry performs exactly one send,
of exactly those `T` entries in consumption order (none of them below the
ship threshold), resets the timer and leaves the batch empty.  Stated for
both clients. -/
theorem C2_send_at_threshold (c : Client)
    (preJ : List jsonLogEntry) (lastJ : jsonLogEntry)
    (preP : List protoLogEntry) (lastP : protoLogEntry)
    (hlJ : lastJ.level ≥ c.config.SendLevel)
    (hnJ : (((preJ ++ [lastJ]).filter (fun e => e.level ≥ c.config.SendLevel)).length : Int)
      = c.config.BatchEntriesNumber)
    (hlP : lastP.level ≥ c.config.SendLevel)
    (hnP : (((preP ++ [lastP]).filter (fun e => e.level ≥ c.config.SendLevel)).length : Int)
      = c.config.BatchEntriesNumber) :
    (1 ≤ c.config.BatchEntriesNumber ∧
      sends (clientJson.run c (entryEvents preJ)).trace = [] ∧
      (∃ s, (clientJson.run c (entryEvents preJ)).state = some s ∧
        onEntry jsonKind c s lastJ =
          (⟨[], 0⟩, printStep jsonKind c lastJ ++
            [Action.send ((preJ ++ [lastJ]).filter (fun e => e.level ≥ c.config.SendLevel)),
              Action.resetTimer])) ∧
      sends (clientJson.run c (entryEvents (preJ ++ [lastJ]))).trace =
        [(preJ ++ [lastJ]).filter (fun e => e.level ≥ c.config.SendLevel)] ∧
      (clientJson.run c (entryEvents (preJ ++ [lastJ]))).state = some ⟨[], 0⟩ ∧
      (∀ e ∈ (preJ ++ [lastJ]).filter (fun e => e.level ≥ c.config.SendLevel),
        e.level ≥ c.config.SendLevel)) ∧
    (sends (clientProto.run c (entryEvents preP)).trace = [] ∧
      (∃ s, (clientProto.run c (entryEvents preP)).state = some s ∧
        onEntry protoKind c s lastP =
          (⟨[], 0⟩, printStep protoKind c lastP ++
            [Action.send (((preP ++ [lastP]).filter
                (fun e => e.level ≥ c.config.SendLevel)).map (fun e => e.entry)),
              Action.resetTimer])) ∧
      sends (clientProto.run c (entryEvents (preP ++ [lastP]))).trace =
        [((preP ++ [lastP]).filter (fun e => e.level ≥ c.config.SendLevel)).map
          (fun e => e.entry)] ∧
      (clientProto.run c (entryEvents (preP ++ [lastP]))).state = some ⟨[], 0⟩) := by
  have hJ := runFrom_threshold jsonKind c preJ lastJ hlJ hnJ
  have hP := runFrom_threshold protoKind c preP lastP hlP hnP
  have hone : 1 ≤ c.config.BatchEntriesNumber := by
    rw [← hnJ, List.filter_append, List.length_append]
    have : ([lastJ].filter (fun e => decide (e.level ≥ c.config.SendLevel))).length = 1 := by
      simp [List.filter_cons, hlJ]
    rw [this]
    push_cast
    omega
  have hid : ∀ l : List jsonLogEntry, l.map jsonKind.payload = l := by
    intro l
    show l.map (fun e => e) = l
    exact List.map_id l
  simp only [hid] at hJ
  refine ⟨⟨hone, hJ.1, hJ.2.1, hJ.2.2.1, hJ.2.2.2, ?_⟩, hP⟩
  intro e he
  simpa using (List.mem_filter.mp he).2

/-- C2 at the scenario of the specification: `T = 2`, `SendLevel = Info`,
entries Debug, Info, Warn give exactly one send with `[Info, Warn]`. -/
theorem C2_send_at_threshold_witness :
    (exJsonWarn.level ≥ exClient.config.SendLevel ∧
      ((([exJsonDebug, exJsonInfo] ++ [exJsonWarn]).filter
        (fun e => e.level ≥ exClient.config.SendLevel)).length : Int)
          = exClient.config.BatchEntriesNumber ∧
      exProtoWarn.level ≥ exClient.config.SendLevel ∧
      ((([exProtoDebug, exProtoInfo] ++ [exProtoWarn]).filter
        (fun e => e.level ≥ exClient.config.SendLevel)).length : Int)
          = exClient.config.BatchEntriesNumber) ∧
    sends (clientJson.run exClient (entryEvents [exJsonDebug, exJsonInfo])).trace = [] ∧
    sends (clientJson.run exClient
      (entryEvents ([exJsonDebug, exJsonInfo] ++ [exJsonWarn]))).trace =
        [[exJsonInfo, exJsonWarn]] ∧
    (clientJson.run exClient
      (entryEvents ([exJsonDebug, exJsonInfo] ++ [exJsonWarn]))).state = some ⟨[], 0⟩ ∧
    sends (clientProto.run exClient
      (entryEvents ([exProtoDebug, exProtoInfo] ++ [exProtoWarn]))).trace =
        [[exProtoInfo.entry, exProtoWarn.entry]] :=
  have h := C2_send_at_threshold exClient [exJsonDebug, exJsonInfo] exJsonWarn
    [exProtoDebug, exProtoInfo] exProtoWarn (by decide) (by decide) (by decide) (by decide)
  ⟨⟨by decide, by decide, by decide, by decide⟩, h.1.2.1, h.1.2.2.2.1, h.1.2.2.2.2.1,
    h.2.2.2.1⟩

/-- C3: shutdown drains.  For every state `s` the batching loop can be in
(reached by `run` on any sequence of events), with the entries `s.batch`
pending: the counter equals the number of pending entries, and when the quit
event is handled `run` performs exactly one final send, of exactly the
pending entries in order, if there is at least one, and no send if there is
none; in both cases `waitGroup.Done` is the last action, after that send or
after the decision that the batch was empty, and `run` returns.  Stated for
both clients. -/
theorem C3_quit_drains_pending_batch (c : Client)
    (evsJ : List (Event jsonLogEntry)) (sJ : LoopState jsonLogEntry)
    (evsP : List (Event protoLogEntry)) (sP : LoopState logprotoEntry)
    (hJ : (clientJson.run c evsJ).state = some sJ)
    (hP : (clientProto.run c evsP).state = some sP) :
    (sJ.batchSize = sJ.batch.length ∧
      clientJson.run c (evsJ ++ [Event.quit]) =
        ⟨(clientJson.run c evsJ).trace ++
          (if sJ.batch.isEmpty then [Action.done] else [Action.send sJ.batch, Action.done]),
          none⟩) ∧
    (sP.batchSize = sP.batch.length ∧
      clientProto.run c (evsP ++ [Event.quit]) =
        ⟨(clientProto.run c evsP).trace ++
          (if sP.batch.isEmpty then [Action.done] else [Action.send sP.batch, Action.done]),
          none⟩) :=
  ⟨runFrom_drain jsonKind c evsJ sJ hJ, runFrom_drain protoKind c evsP sP hP⟩

/-- C3 at concrete runs: one entry pending (JSON client) and none pending
(binary client) below the threshold 2. -/
theorem C3_quit_drains_pending_batch_witness :
    ((clientJson.run exClient [Event.entry (some exJsonDebug),
        Event.entry (some exJsonInfo)]).state = some ⟨[exJsonInfo], 1⟩ ∧
      (clientProto.run exClient [Event.entry (some exProtoDebug)]).state = some ⟨[], 0⟩) ∧
    clientJson.run exClient
        ([Event.entry (some exJsonDebug), Event.entry (some exJsonInfo)] ++ [Event.quit]) =
      ⟨(clientJson.run exClient [Event.entry (some exJsonDebug),
          Event.entry (some exJsonInfo)]).trace ++
        [Action.send [exJsonInfo], Action.done], none⟩ ∧
    clientProto.run exClient ([Event.entry (some exProtoDebug)] ++ [Event.quit]) =
      ⟨(clientProto.run exClient [Event.entry (some exProtoDebug)]).trace ++ [Action.done],
        none⟩ :=
  have h := C3_quit_drains_pending_batch exClient
    [Event.entry (some exJsonDebug), Event.entry (some exJsonInfo)] ⟨[exJsonInfo], 1⟩
    [Event.entry (some exProtoDebug)] ⟨[], 0⟩ (by decide) (by decide)
  ⟨⟨by decide, by decide⟩, h.1.2, h.2.2⟩

/-- C4: for every batch-size threshold `T` and every sequence of `N` consumed
entries with level at least `SendLevel` and `N < T`, processed by `run` from
the empty batch: no send occurs while the entries are consumed; when the
flush timer then fires, exactly one send occurs if `N ≥ 1`, containing all
`N` entries in submission order, and no send occurs if `N = 0`; in both
cases the batch is empty after the timer event.  Stated for both clients. -/
theorem C4_timer_flushes_pending_entries (c : Client)
    (esJ : List jsonLogEntry) (esP : List protoLogEntry)
    (hJ : ∀ e ∈ esJ, e.level ≥ c.config.SendLevel)
    (hnJ : (esJ.length : Int) < c.config.BatchEntriesNumber)
    (hP : ∀ e ∈ esP, e.level ≥ c.config.SendLevel)
    (hnP : (esP.length : Int) < c.config.BatchEntriesNumber) :
    (sends (clientJson.run c (entryEvents esJ)).trace = [] ∧
      sends (clientJson.run c (entryEvents esJ ++ [Event.timer])).trace =
        (if esJ.isEmpty then [] else [esJ]) ∧
      (clientJson.run c (entryEvents esJ ++ [Event.timer])).state = some ⟨[], 0⟩) ∧
    (sends (clientProto.run c (entryEvents esP)).trace = [] ∧
      sends (clientProto.run c (entryEvents esP ++ [Event.timer])).trace =
        (if esP.isEmpty then [] else [esP.map (fun e => e.entry)]) ∧
      (clientProto.run c (entryEvents esP ++ [Event.timer])).state = some ⟨[], 0⟩) := by
  have h1 := runFrom_timer_flush jsonKind c esJ hJ hnJ
  have h2 := runFrom_timer_flush protoKind c esP hP hnP
  have hid : esJ.map jsonKind.payload = esJ := by
    show esJ.map (fun e => e) = esJ
    exact List.map_id esJ
  rw [hid] at h1
  exact ⟨h1, h2⟩

/-- C4 at concrete runs: one shipped entry below the threshold 2 (JSON
client), and no entry at all (binary client). -/
theorem C4_timer_flushes_pending_entries_witness :
    ((∀ e ∈ [exJsonWarn], e.level ≥ exClient.config.SendLevel) ∧
      (([exJsonWarn].length : Nat) : Int) < exClient.config.BatchEntriesNumber ∧
      (∀ e ∈ ([] : List protoLogEntry), e.level ≥ exClient.config.SendLevel) ∧
      ((([] : List protoLogEntry).length : Nat) : Int) < exClient.config.BatchEntriesNumber) ∧
    sends (clientJson.run exClient (entryEvents [exJsonWarn])).trace = [] ∧
    sends (clientJson.run exClient (entryEvents [exJsonWarn] ++ [Event.timer])).trace =
      [[exJsonWarn]] ∧
    (clientJson.run exClient (entryEvents [exJsonWarn] ++ [Event.timer])).state =
      some ⟨[], 0⟩ ∧
    sends (clientProto.run exClient (entryEvents [] ++ [Event.timer])).trace = [] :=
  have h := C4_timer_flushes_pending_entries exClient [exJsonWarn] []
    (by decide) (by decide) (by decide) (by decide)
  ⟨⟨by decide, by decide, by decide, by decide⟩, h.1.1, h.1.2.1, h.1.2.2, h.2.2.1⟩

/-! ## Lemmas on printing and appending -/

theorem printed_append {β : Type} (a b : List (Action β)) :
    printed (a ++ b) = (printed a || printed b) := by
  unfold printed
  rw [List.any_append]

theorem printed_printStep {α β : Type} (k : EntryKind α β) (c : Client) (e : α) :
    printed (printStep k c e : List (Action β)) =
      (decide (k.level e ≥ c.config.PrintLevel) && c.isDebug) := by
  unfold printStep
  by_cases h : (decide (k.level e ≥ c.config.PrintLevel) && c.isDebug) = true
  · rw [if_pos h, h]; rfl
  · rw [if_neg h]
    simp only [Bool.not_eq_true] at h
    rw [h]; rfl

theorem send_not_mem_printStep {α β : Type} (k : EntryKind α β) (c : Client) (e : α)
    (b : List β) : Action.send b ∉ (printStep k c e : List (Action β)) := by
  unfold printStep
  split <;> simp

/-- The entry branch prints exactly when the print gate and the debug flag
both hold. -/
theorem onEntry_printed {α β : Type} (k : EntryKind α β) (c : Client) (s : LoopState β)
    (e : α) :
    printed (onEntry k c s e).2 = (decide (k.level e ≥ c.config.PrintLevel) && c.isDebug) := by
  by_cases h1 : k.level e ≥ c.config.SendLevel
  · by_cases h2 : s.batchSize + 1 ≥ c.config.BatchEntriesNumber
    · rw [onEntry_flush k c s e h1 h2]
      show printed (_ ++ _) = _
      rw [printed_append, printed_printStep]
      simp [printed]
    · rw [onEntry_keep k c s e h1 h2]
      exact printed_printStep k c e
  · rw [onEntry_skip k c s e h1]
    exact printed_printStep k c e

/-- The entry branch of the JSON client appends exactly when the ship gate
holds. -/
theorem onEntry_appended (c : Client) (s : LoopState jsonLogEntry) (e : jsonLogEntry) :
    appended s e (onEntry jsonKind c s e) = true ↔ e.level ≥ c.config.SendLevel := by
  have hk : jsonKind.level e = e.level := rfl
  by_cases h1 : jsonKind.level e ≥ c.config.SendLevel
  · by_cases h2 : s.batchSize + 1 ≥ c.config.BatchEntriesNumber
    · rw [onEntry_flush jsonKind c s e h1 h2]
      simp [appended, jsonKind, hk ▸ h1]
    · rw [onEntry_keep jsonKind c s e h1 h2]
      simp [appended, jsonKind, hk ▸ h1]
  · rw [onEntry_skip jsonKind c s e h1]
    have hne : s.batch ≠ s.batch ++ [e] := by
      intro h
      have := congrArg List.length h
      simp at this
    have hns := send_not_mem_printStep jsonKind c e (s.batch ++ [e])
    simp [appended, hne, hns, hk ▸ h1]

/-! ## Severity gating: claim C8 -/

/-- C8, counterexample: on a client without the debug flag, with print
threshold `Debug` and ship threshold `Error`, an `Info` entry meets the print
threshold only; `log` enqueues it, and when the loop consumes it neither
action executes: nothing is printed and the batch is unchanged. -/
theorem C8_counterexample_no_action_without_debug :
    (Info ≥ exQuietClient.config.PrintLevel ∧ ¬ Info ≥ exQuietClient.config.SendLevel) ∧
    clientJson.log exQuietClient 7 "Info: b" Info = some ⟨7, "Info: b", Info⟩ ∧
    printed (onEntry jsonKind exQuietClient LoopState.init ⟨7, "Info: b", Info⟩).2 = false ∧
    appended LoopState.init (⟨7, "Info: b", Info⟩ : jsonLogEntry)
      (onEntry jsonKind exQuietClient LoopState.init ⟨7, "Info: b", Info⟩) = false ∧
    onEntry jsonKind exQuietClient LoopState.init ⟨7, "Info: b", Info⟩ = (LoopState.init, []) := by
  decide

/-- C8, amended: for every client, every entry whose level meets exactly one
of the two thresholds is constructed and enqueued by `log`; when the loop
consumes it, in any state, it is printed
if and only if its level is at least `PrintLevel` and the client is in debug
mode, and it is appended to the batch if and only if its level is at least
`SendLevel`; so when the client is in debug mode exactly one of the two
actions executes.  An entry meeting neither threshold is not enqueued. -/
theorem C8_double_gating_with_debug_flag (c : Client) (now : Int) (line : String)
    (level : LogLevel) (s : LoopState jsonLogEntry)
    (hone : (level ≥ c.config.PrintLevel ∧ ¬ level ≥ c.config.SendLevel) ∨
      (level ≥ c.config.SendLevel ∧ ¬ level ≥ c.config.PrintLevel)) :
    clientJson.log c now line level = some ⟨now, line, level⟩ ∧
    (printed (onEntry jsonKind c s ⟨now, line, level⟩).2 = true ↔
      (level ≥ c.config.PrintLevel ∧ c.isDebug = true)) ∧
    (appended s (⟨now, line, level⟩ : jsonLogEntry) (onEntry jsonKind c s ⟨now, line, level⟩)
      = true ↔ level ≥ c.config.SendLevel) ∧
    (c.isDebug = true →
      (printed (onEntry jsonKind c s ⟨now, line, level⟩).2 = true ↔
        ¬ appended s (⟨now, line, level⟩ : jsonLogEntry)
          (onEntry jsonKind c s ⟨now, line, level⟩) = true)) ∧
    (∀ (lv : LogLevel), ¬ lv ≥ c.config.SendLevel → ¬ lv ≥ c.config.PrintLevel →
      clientJson.log c now line lv = none) := by
  have hlog : clientJson.log c now line level = some ⟨now, line, level⟩ := by
    unfold clientJson.log
    rw [if_pos]
    rcases hone with h | h
    · exact Or.inr h.1
    · exact Or.inl h.1
  have hnone : ∀ (lv : LogLevel), ¬ lv ≥ c.config.SendLevel → ¬ lv ≥ c.config.PrintLevel →
      clientJson.log c now line lv = none := by
    intro lv h1 h2
    unfold clientJson.log
    rw [if_neg]
    rintro (h | h)
    · exact h1 h
    · exact h2 h
  refine ⟨hlog, ?_, ?_, ?_, hnone⟩
  · rw [onEntry_printed]
    simp [jsonKind]
  · exact onEntry_appended c s ⟨now, line, level⟩
  · intro hd
    rw [onEntry_printed, onEntry_appended]
    rcases hone with h | h
    · simp [jsonKind, h.1, h.2, hd]
    · simp [jsonKind, h.1, h.2, hd]

/-- C8 (amended) at a concrete input: a `Debug` entry on the debug-mode
client with print threshold `Debug` and ship threshold `Info`. -/
theorem C8_double_gating_with_debug_flag_witness :
    ((Debug ≥ exClient.config.PrintLevel ∧ ¬ Debug ≥ exClient.config.SendLevel) ∨
      (Debug ≥ exClient.config.SendLevel ∧ ¬ Debug ≥ exClient.config.PrintLevel)) ∧
    clientJson.log exClient 1 "Debug: a" Debug = some ⟨1, "Debug: a", Debug⟩ ∧
    (printed (onEntry jsonKind exClient LoopState.init ⟨1, "Debug: a", Debug⟩).2 = true ↔
      (Debug ≥ exClient.config.PrintLevel ∧ exClient.isDebug = true)) :=
  have h := C8_double_gating_with_debug_flag exClient 1 "Debug: a" Debug LoopState.init
    (by decide)
  ⟨by decide, h.1, h.2.1⟩

/-! ## Timestamp split: claim C10 -/

/-- The truncated remainder by `10^9` lies strictly between `-10^9` and
`10^9`. -/
theorem tmod_timeSecond_bounds (ns : Int) :
    -1000000000 < ns.tmod 1000000000 ∧ ns.tmod 1000000000 < 1000000000 := by
  refine ⟨?_, Int.tmod_lt_of_pos ns (by decide)⟩
  rcases ns with n | n
  · have h : (0 : Int) ≤ (Int.ofNat n).tmod 1000000000 :=
      Int.tmod_nonneg 1000000000 (Int.ofNat_nonneg n)
    exact lt_of_lt_of_le (by decide) h
  · have h : (Int.negSucc n).tmod 1000000000 = -(((n + 1) % 1000000000 : Nat) : Int) := rfl
    rw [h]
    omega

/-- The conversion to `int32` is the identity on the 32-bit range. -/
theorem toInt32_of_range (x : Int) (h1 : -2147483648 ≤ x) (h2 : x < 2147483648) :
    toInt32 x = x := by
  unfold toInt32
  omega

/-- C10: for every nanosecond instant `ns` (every integer, in particular
every signed 64-bit one) passing the construction gate, the entry built by
`clientProto.log` has `Seconds = ns div 10^9` and `Nanos = ns mod 10^9`
(Go's truncated division and remainder); the conversion of the remainder to
a 32-bit integer loses nothing; `Seconds * 10^9 + Nanos = ns`; and for
`ns ≥ 0` the remainder satisfies `0 ≤ Nanos < 10^9`. -/
theorem C10_timestamp_split (c : Client) (ns : Int) (line : String) (level : LogLevel)
    (hgate : level ≥ c.config.SendLevel ∨ level ≥ c.config.PrintLevel) :
    ∃ e, clientProto.log c ns line level = some e ∧
      e.level = level ∧ e.entry.Line = line ∧
      e.entry.Timestamp.Seconds = ns.tdiv 1000000000 ∧
      e.entry.Timestamp.Nanos = ns.tmod 1000000000 ∧
      toInt32 (ns.tmod 1000000000) = ns.tmod 1000000000 ∧
      e.entry.Timestamp.Seconds * 1000000000 + e.entry.Timestamp.Nanos = ns ∧
      (0 ≤ ns → 0 ≤ e.entry.Timestamp.Nanos ∧ e.entry.Timestamp.Nanos < 1000000000) := by
  obtain ⟨hlo, hhi⟩ := tmod_timeSecond_bounds ns
  have hconv : toInt32 (ns.tmod 1000000000) = ns.tmod 1000000000 :=
    toInt32_of_range _ (by omega) (by omega)
  refine ⟨⟨⟨⟨ns.tdiv timeSecond, toInt32 (ns.tmod timeSecond)⟩, line⟩, level⟩, ?_, rfl, rfl,
    rfl, hconv, hconv, ?_, ?_⟩
  · unfold clientProto.log
    rw [if_pos hgate]
  · show ns.tdiv 1000000000 * 1000000000 + toInt32 (ns.tmod 1000000000) = ns
    rw [hconv]
    exact Int.tdiv_add_tmod' ns 1000000000
  · intro h0
    show 0 ≤ toInt32 (ns.tmod 1000000000) ∧ toInt32 (ns.tmod 1000000000) < 1000000000
    rw [hconv]
    exact ⟨Int.tmod_nonneg _ h0, hhi⟩

/-- C10 at a concrete instant: `ns = 1700000000123456789`. -/
theorem C10_timestamp_split_witness :
    (Warn ≥ exClient.config.SendLevel ∨ Warn ≥ exClient.config.PrintLevel) ∧
    ∃ e, clientProto.log exClient 1700000000123456789 "Warn: c" Warn = some e ∧
      e.level = Warn ∧ e.entry.Line = "Warn: c" ∧
      e.entry.Timestamp.Seconds = (1700000000123456789 : Int).tdiv 1000000000 ∧
      e.entry.Timestamp.Nanos = (1700000000123456789 : Int).tmod 1000000000 ∧
      toInt32 ((1700000000123456789 : Int).tmod 1000000000) =
        (1700000000123456789 : Int).tmod 1000000000 ∧
      e.entry.Timestamp.Seconds * 1000000000 + e.entry.Timestamp.Nanos = 1700000000123456789 ∧
      ((0 : Int) ≤ 1700000000123456789 →
        0 ≤ e.entry.Timestamp.Nanos ∧ e.entry.Timestamp.Nanos < 1000000000) :=
  ⟨by decide, C10_timestamp_split exClient 1700000000123456789 "Warn: c" Warn (by decide)⟩

/-! ## Lemmas on the validators and on the amendment -/

theorem iterUpTo_nil (f : Nat → List Nat) (t : Nat) : iterUpTo f t [] = [] := by
  induction t with
  | zero => rfl
  | succ t ih => simp [iterUpTo, ih]

theorem clsStep_eq (rs : List (Char × Char)) (s : List Char) (j : Nat) :
    clsStep rs s j = if (∃ c, s.get? j = some c ∧ inClass rs c = true) then [j + 1] else [] := by
  unfold clsStep Regex.ends
  cases h : s.get? j with
  | none => simp
  | some c => by_cases hc : inClass rs c = true <;> simp [hc]

/-- Positions reached from `j` by at most `t` iterations of a one-character
class: the positions `m` with `j ≤ m ≤ j + t` such that every character in
between is in the class. -/
theorem mem_iterUpTo_clsStep (rs : List (Char × Char)) (s : List Char) :
    ∀ (t j m : Nat), m ∈ iterUpTo (clsStep rs s) t [j] ↔
      (j ≤ m ∧ m ≤ j + t ∧ ∀ p, j ≤ p → p < m → ∃ c, s.get? p = some c ∧ inClass rs c = true) := by
  intro t
  induction t with
  | zero =>
    intro j m
    simp only [iterUpTo, List.mem_singleton, Nat.add_zero]
    constructor
    · rintro rfl
      exact ⟨le_refl _, le_refl _, fun p h1 h2 => absurd h2 (by omega)⟩
    · rintro ⟨h1, h2, _⟩
      omega
  | succ t ih =>
    intro j m
    simp only [iterUpTo, List.flatMap_cons, List.flatMap_nil, List.append_nil, List.mem_append,
      List.mem_singleton]
    rw [clsStep_eq]
    by_cases hg : ∃ c, s.get? j = some c ∧ inClass rs c = true
    · rw [if_pos hg, ih]
      constructor
      · rintro (rfl | ⟨h1, h2, h3⟩)
        · exact ⟨le_refl _, by omega, fun p h1 h2 => absurd h2 (by omega)⟩
        · refine ⟨by omega, by omega, fun p hp1 hp2 => ?_⟩
          by_cases hpj : p = j
          · rw [hpj]; exact hg
          · exact h3 p (by omega) hp2
      · rintro ⟨h1, h2, h3⟩
        by_cases hmj : m = j
        · exact Or.inl hmj
        · exact Or.inr ⟨by omega, by omega, fun p hp1 hp2 => h3 p (by omega) hp2⟩
    · rw [if_neg hg, iterUpTo_nil]
      constructor
      · rintro (rfl | h)
        · exact ⟨le_refl _, by omega, fun p h1 h2 => absurd h2 (by omega)⟩
        · cases h
      · rintro ⟨h1, h2, h3⟩
        by_cases hmj : m = j
        · exact Or.inl hmj
        · exact absurd (h3 j (le_refl _) (by omega)) hg

theorem pattern_ends (s : List Char) (i : Nat) :
    pattern.ends s i =
      (if i = 0 then [i] else []).flatMap (fun j =>
        (iterUpTo (clsStep wordRanges s) s.length ([j].flatMap (clsStep wordRanges s))).flatMap
          (fun k => if k = s.length then [k] else [])) := rfl

theorem pattern_ends_nonempty (s : List Char) (i : Nat) :
    (pattern.ends s i).isEmpty = false ↔
      (i = 0 ∧ s ≠ [] ∧ ∀ ch ∈ s, inClass wordRanges ch = true) := by
  rw [pattern_ends]
  have hall : (∀ ch ∈ s, inClass wordRanges ch = true) ↔
      ∀ p, p < s.length → ∃ c, s.get? p = some c ∧ inClass wordRanges c = true := by
    constructor
    · intro h p hp
      exact ⟨s.get ⟨p, hp⟩, List.get?_eq_get hp, h _ (List.get_mem s p hp)⟩
    · intro h ch hch
      obtain ⟨⟨p, hp⟩, rfl⟩ := List.mem_iff_get.mp hch
      obtain ⟨c, h1, h2⟩ := h p hp
      rw [List.get?_eq_get hp] at h1
      cases h1
      exact h2
  by_cases hi : i = 0
  · subst hi
    simp only [if_true, List.flatMap_cons, List.flatMap_nil, List.append_nil, true_and]
    have hmem : (List.flatMap (iterUpTo (clsStep wordRanges s) s.length (clsStep wordRanges s 0))
        (fun k => if k = s.length then [k] else [])).isEmpty = false ↔
        s.length ∈ iterUpTo (clsStep wordRanges s) s.length (clsStep wordRanges s 0) := by
      rw [List.isEmpty_eq_false]
      constructor
      · intro h
        obtain ⟨x, hx⟩ := List.exists_mem_of_ne_nil _ h
        rw [List.mem_flatMap] at hx
        obtain ⟨k, hk1, hk2⟩ := hx
        by_cases hkn : k = s.length
        · exact hkn ▸ hk1
        · rw [if_neg hkn] at hk2; cases hk2
      · intro h hnil
        have : s.length ∈ List.flatMap
            (iterUpTo (clsStep wordRanges s) s.length (clsStep wordRanges s 0))
            (fun k => if k = s.length then [k] else []) := by
          rw [List.mem_flatMap]
          exact ⟨s.length, h, by simp⟩
        rw [hnil] at this
        cases this
    rw [hmem, hall, clsStep_eq]
    by_cases hg : ∃ c, s.get? 0 = some c ∧ inClass wordRanges c = true
    · rw [if_pos hg, mem_iterUpTo_clsStep]
      constructor
      · rintro ⟨h1, _, h3⟩
        refine ⟨fun h => by rw [h] at h1; simp at h1, fun p hp => ?_⟩
        by_cases hp0 : p = 0
        · rw [hp0]; exact hg
        · exact h3 p (by omega) hp
      · rintro ⟨h1, h2⟩
        have : 0 < s.length := List.length_pos.mpr h1
        exact ⟨by omega, by omega, fun p _ hp => h2 p hp⟩
    · rw [if_neg hg, iterUpTo_nil]
      constructor
      · intro h; cases h
      · rintro ⟨h1, h2⟩
        exact absurd (h2 0 (List.length_pos.mpr h1)) hg
  · simp [hi]

/-- What `sourceAndJobValidator` accepts: the non-empty words all of whose
characters are in the range `A`..`z` (which contains the six characters
between `Z` and `a`), a hyphen, an underscore or a digit. -/
theorem sourceAndJobValidator_iff (word : String) :
    sourceAndJobValidator word = true ↔
      (word.data ≠ [] ∧ ∀ ch ∈ word.data, inClass wordRanges ch = true) := by
  unfold sourceAndJobValidator Regex.MatchString
  rw [List.any_eq_true]
  constructor
  · rintro ⟨i, _, hi⟩
    have := (pattern_ends_nonempty word.data i).mp (by simpa using hi)
    exact this.2
  · intro h
    refine ⟨0, by simp, ?_⟩
    have := (pattern_ends_nonempty word.data 0).mpr ⟨rfl, h⟩
    simpa using this

theorem utf8ByteSize_go_ge_length (l : List Char) : l.length ≤ String.utf8ByteSize.go l := by
  induction l with
  | nil => exact Nat.le_refl _
  | cons c cs ih =>
    have := Char.utf8Size_pos c
    simp only [String.utf8ByteSize.go, List.length_cons]
    omega

theorem length_le_len (s : String) : (s.data.length : Int) ≤ len s := by
  unfold len
  have : s.data.length ≤ s.utf8ByteSize := utf8ByteSize_go_ge_length s.data
  exact_mod_cast this

/-- When the only instance of the character `x` is the last character,
replacing at least one instance replaces that one. -/
theorem replaceFirst_last (x : Char) (new : List Char) (n : Nat) :
    ∀ pre : List Char, x ∉ pre →
      replaceFirst [x] new 0 (n + 1) (pre ++ [x]) = pre ++ new := by
  intro pre
  induction pre with
  | nil =>
    intro _
    simp [replaceFirst, List.isPrefixOf]
  | cons c cs ih =>
    intro h
    have hc : x ≠ c := fun e => h (e ▸ List.mem_cons_self _ _)
    have hcs : x ∉ cs := fun m => h (List.mem_cons_of_mem _ m)
    simp [replaceFirst, List.isPrefixOf, hc, ih hcs]

/-- Go's `strings.Replace(s, "}", new, len(s)-1)` on a string of at least two
characters whose only closing brace is the last character. -/
theorem stringsReplace_last_brace (labels new : String) (pre : List Char)
    (hL : labels.data = pre ++ ['\x7d']) (hpre : '\x7d' ∉ pre) (hlen : 1 ≤ pre.length)
    (hnew : new ≠ "\x7d") :
    stringsReplace labels "\x7d" new (len labels - 1) = String.mk (pre ++ new.data) := by
  have h2 : (2 : Int) ≤ len labels := by
    have := length_le_len labels
    rw [hL] at this
    simp only [List.length_append, List.length_singleton] at this
    push_cast at this
    omega
  unfold stringsReplace
  have hcond : ¬ ("\x7d" = new ∨ len labels - 1 = 0) := by
    rintro (h | h)
    · exact hnew h.symm
    · omega
  rw [if_neg hcond]
  have hneg : ¬ (len labels - 1 < 0) := by omega
  simp only [if_neg hneg]
  rw [if_neg (by simp), hL]
  obtain ⟨k, hk⟩ : ∃ k, (len labels - 1).toNat = k + 1 :=
    ⟨(len labels - 1).toNat - 1, by omega⟩
  rw [hk, replaceFirst_last _ _ _ _ hpre]

theorem validators_of_accepted (label : Label) (stack : String)
    (hacc : (LabelBuilder (some label) stack).2 = none) :
    hostOrIPValidator label.Host = true ∧ sourceAndJobValidator label.Source = true ∧
      sourceAndJobValidator label.Job = true := by
  cases h1 : hostOrIPValidator label.Host <;> cases h2 : sourceAndJobValidator label.Source <;>
    cases h3 : sourceAndJobValidator label.Job <;> simp [LabelBuilder, h1, h2, h3] at hacc ⊢

theorem brace_not_mem_of_valid (word : String) (h : sourceAndJobValidator word = true) :
    '\x7d' ∉ word.data := by
  intro hm
  have := ((sourceAndJobValidator_iff word).mp h).2 _ hm
  revert this
  decide

/-- A string that starts with a comma is not the string `}`. -/
theorem comma_append_ne_brace (t : String) (u : String) (hu : u.data.head? = some ',') :
    u ++ t ≠ "\x7d" := by
  intro h
  have hd := congrArg String.data h
  rw [String.data_append] at hd
  cases hud : u.data with
  | nil => rw [hud] at hu; cases hu
  | cons a as =>
    rw [hud] at hu hd
    simp only [List.head?_cons, Option.some.injEq] at hu
    subst hu
    have : (("\x7d" : String).data) = ['\x7d'] := rfl
    rw [this, List.cons_append] at hd
    have := (List.cons.inj hd).1
    revert this
    decide

/-- On the output of `LabelBuilder` for a label whose host contains no
closing brace, the amendment replaces the final brace only: the field is
appended once and the text before the brace is unchanged. -/
theorem amend_label_without_brace (label : Label) (stack : String) (field : String)
    (hfield : field.data.head? = some ',')
    (hacc : (LabelBuilder (some label) stack).2 = none)
    (hhost : '\x7d' ∉ label.Host.data) :
    stringsReplace (LabelBuilder (some label) stack).1 "\x7d" (field ++ "\"\x7d")
        (len (LabelBuilder (some label) stack).1 - 1) =
      "\x7bhost=\"" ++ label.Host ++ "\",source=\"" ++ label.Source ++ "\",job=\"" ++
        label.Job ++ "\"" ++ field ++ "\"\x7d" := by
  obtain ⟨hh, hs, hj⟩ := validators_of_accepted label stack hacc
  have hL : (LabelBuilder (some label) stack).1 =
      "\x7bhost=\"" ++ label.Host ++ "\",source=\"" ++ label.Source ++ "\",job=\"" ++
        label.Job ++ "\"\x7d" := by
    simp [LabelBuilder, hh, hs, hj]
  have hq : ("\"\x7d" : String).data = ['"', '\x7d'] := rfl
  have hq1 : ("\"" : String).data = ['"'] := rfl
  rw [hL, stringsReplace_last_brace _ _
    ("\x7bhost=\"" ++ label.Host ++ "\",source=\"" ++ label.Source ++ "\",job=\"" ++
      label.Job ++ "\"").data]
  · apply String.ext
    simp only [String.data_append, List.append_assoc]
  · simp only [String.data_append, hq, hq1, List.append_assoc]
    rfl
  · have hS := brace_not_mem_of_valid _ hs
    have hJ := brace_not_mem_of_valid _ hj
    have h1 : '\x7d' ∉ ("\x7bhost=\"" : String).data := by decide
    have h2 : '\x7d' ∉ ("\",source=\"" : String).data := by decide
    have h3 : '\x7d' ∉ ("\",job=\"" : String).data := by decide
    have h4 : '\x7d' ∉ ("\"" : String).data := by decide
    simp only [String.data_append, List.mem_append, not_or]
    exact ⟨⟨⟨⟨⟨⟨h1, hhost⟩, h2⟩, hS⟩, h3⟩, hJ⟩, h4⟩
  · simp only [String.data_append, List.length_append, hq1, List.length_singleton]
    omega
  · exact comma_append_ne_brace _ _ hfield

/-- On a client whose label string is the output of `LabelBuilder` for a
label whose host contains no closing brace, `SetServiceName` and `SetVersion`
(of either client) append their field once, before the final brace. -/
theorem amendment_without_brace (c : Client) (label : Label) (stack : String) (x : String)
    (hc : c.config.Labels = (LabelBuilder (some label) stack).1)
    (hacc : (LabelBuilder (some label) stack).2 = none)
    (hhost : '\x7d' ∉ label.Host.data) :
    ((clientJson.SetServiceName c x).config.Labels =
      "\x7bhost=\"" ++ label.Host ++ "\",source=\"" ++ label.Source ++ "\",job=\"" ++
        label.Job ++ "\"" ++ (",service_name=\"" ++ x) ++ "\"\x7d" ∧
    (clientProto.SetServiceName c x).config.Labels =
      "\x7bhost=\"" ++ label.Host ++ "\",source=\"" ++ label.Source ++ "\",job=\"" ++
        label.Job ++ "\"" ++ (",service_name=\"" ++ x) ++ "\"\x7d") ∧
    ((clientJson.SetVersion c x).config.Labels =
      "\x7bhost=\"" ++ label.Host ++ "\",source=\"" ++ label.Source ++ "\",job=\"" ++
        label.Job ++ "\"" ++ (",version=\"" ++ x) ++ "\"\x7d" ∧
    (clientProto.SetVersion c x).config.Labels =
      "\x7bhost=\"" ++ label.Host ++ "\",source=\"" ++ label.Source ++ "\",job=\"" ++
        label.Job ++ "\"" ++ (",version=\"" ++ x) ++ "\"\x7d") := by
  have h1 := amend_label_without_brace label stack (",service_name=\"" ++ x)
    (by rw [String.data_append]; rfl) hacc hhost
  have h2 := amend_label_without_brace label stack (",version=\"" ++ x)
    (by rw [String.data_append]; rfl) hacc hhost
  rw [← hc] at h1 h2
  exact ⟨⟨h1, h1⟩, ⟨h2, h2⟩⟩

/-! ## Label builder: claims C5, C6, C7 -/

/-- C5: for every label whose host, source and job all pass validation,
`LabelBuilder` returns no error and exactly the string
`{host="H",source="S",job="J"}` built from the three field values in the
fixed order host, source, job; the result is the same whatever the call
stack, so it depends on the three field values only. -/
theorem C5_label_string_of_valid_label (label : Label) (stack : String)
    (hh : hostOrIPValidator label.Host = true)
    (hs : sourceAndJobValidator label.Source = true)
    (hj : sourceAndJobValidator label.Job = true) :
    LabelBuilder (some label) stack =
      ("\x7bhost=\"" ++ label.Host ++ "\",source=\"" ++ label.Source ++ "\",job=\"" ++
        label.Job ++ "\"\x7d", none) ∧
    (∀ stack2 : String, LabelBuilder (some label) stack2 = LabelBuilder (some label) stack) := by
  have h : ∀ st : String, LabelBuilder (some label) st =
      ("\x7bhost=\"" ++ label.Host ++ "\",source=\"" ++ label.Source ++ "\",job=\"" ++
        label.Job ++ "\"\x7d", none) := by
    intro st
    simp [LabelBuilder, hh, hs, hj]
  exact ⟨h stack, fun st => (h st).trans (h stack).symm⟩

/-- C5 at a concrete label. -/
theorem C5_label_string_of_valid_label_witness :
    (hostOrIPValidator exLabel.Host = true ∧ sourceAndJobValidator exLabel.Source = true ∧
      sourceAndJobValidator exLabel.Job = true) ∧
    LabelBuilder (some exLabel) "goroutine 1 [running]" =
      ("\x7bhost=\"localhost:3100\",source=\"app\",job=\"job-1\"\x7d", none) :=
  ⟨by decide,
    (C5_label_string_of_valid_label exLabel "goroutine 1 [running]"
      (by decide) (by decide) (by decide)).1⟩

/-- C6: for every non-nil label with at least one invalid field,
`LabelBuilder` returns the empty string together with an error whose message
names the first invalid field in the order host, source, job: an invalid
host is reported whatever source and job are, an invalid source is reported
before an invalid job.  `LabelBuilder` returns an error if and only if the
label is nil or some field is invalid, and with an error the string is
empty. -/
theorem C6_first_invalid_field_reported (label : Label) (stack : String) :
    (hostOrIPValidator label.Host = false →
      LabelBuilder (some label) stack =
        ("", some ("promtail_:_helpers_:_labelBuilder_: error: invalid label \x27host\x27, stack: "
          ++ stack))) ∧
    (hostOrIPValidator label.Host = true → sourceAndJobValidator label.Source = false →
      LabelBuilder (some label) stack =
        ("", some ("promtail_:_helpers_:_labelBuilder_: error: invalid label \x27source\x27, stack: "
          ++ stack))) ∧
    (hostOrIPValidator label.Host = true → sourceAndJobValidator label.Source = true →
      sourceAndJobValidator label.Job = false →
      LabelBuilder (some label) stack =
        ("", some ("promtail_:_helpers_:_labelBuilder_: error: invalid label \x27job\x27, stack: "
          ++ stack))) ∧
    (∀ lab : Option Label, (LabelBuilder lab stack).2.isSome = true ↔
      (lab = none ∨ ∃ x, lab = some x ∧
        (hostOrIPValidator x.Host = false ∨ sourceAndJobValidator x.Source = false ∨
          sourceAndJobValidator x.Job = false))) ∧
    (∀ lab : Option Label, (LabelBuilder lab stack).2.isSome = true →
      (LabelBuilder lab stack).1 = "") := by
  refine ⟨?_, ?_, ?_, ?_, ?_⟩
  · intro h
    simp [LabelBuilder, h]
  · intro h1 h2
    simp [LabelBuilder, h1, h2]
  · intro h1 h2 h3
    simp [LabelBuilder, h1, h2, h3]
  · intro lab
    cases lab with
    | none => simp [LabelBuilder]
    | some x =>
      cases h1 : hostOrIPValidator x.Host <;> cases h2 : sourceAndJobValidator x.Source <;>
        cases h3 : sourceAndJobValidator x.Job <;> simp [LabelBuilder, h1, h2, h3]
  · intro lab
    cases lab with
    | none => simp [LabelBuilder]
    | some x =>
      cases h1 : hostOrIPValidator x.Host <;> cases h2 : sourceAndJobValidator x.Source <;>
        cases h3 : sourceAndJobValidator x.Job <;> simp [LabelBuilder, h1, h2, h3]

/-- C6 at a concrete label whose host and source are both invalid: the host
is the field reported. -/
theorem C6_first_invalid_field_reported_witness :
    (hostOrIPValidator exBadLabel.Host = false ∧
      sourceAndJobValidator exBadLabel.Source = false) ∧
    LabelBuilder (some exBadLabel) "goroutine 1 [running]" =
      ("", some ("promtail_:_helpers_:_labelBuilder_: error: invalid label \x27host\x27, stack: "
        ++ "goroutine 1 [running]")) :=
  ⟨by decide,
    (C6_first_invalid_field_reported exBadLabel "goroutine 1 [running]").1 (by decide)⟩

/-- C7, evaluation of the code at failing inputs: the class `[A-z-_0-9]` of
`pattern` contains the characters between `Z` and `a`, so
`sourceAndJobValidator` accepts the words `[` and `a^b`, which are not made
of ASCII letters, digits, hyphens and underscores, and `LabelBuilder`
succeeds on a label with such a source and job. -/
theorem C7_validator_accepts_punctuation :
    sourceAndJobValidator "[" = true ∧
    sourceAndJobValidator "a^b" = true ∧
    LabelBuilder (some ⟨"localhost:3100", "[", "a^b"⟩) "" =
      ("\x7bhost=\"localhost:3100\",source=\"[\",job=\"a^b\"\x7d", none) := by
  decide

/-! ## Label amendment: claim C9 -/

/-- C9, evaluation of the code at a failing input: the host `loki:3100}` is
accepted by `LabelBuilder`; on its output `SetServiceName` and `SetVersion`
(of either client) replace both closing braces, so the new field is spliced
into the host value as well as appended, and the text before the final brace
is not left unchanged. -/
theorem C9_amendment_rewrites_every_brace :
    LabelBuilder (some exBraceLabel) "" =
      ("\x7bhost=\"loki:3100\x7d\",source=\"app\",job=\"job-1\"\x7d", none) ∧
    (clientJson.SetServiceName (exClientWith (LabelBuilder (some exBraceLabel) "").1)
        "svc").config.Labels =
      "\x7bhost=\"loki:3100,service_name=\"svc\"\x7d\",source=\"app\",job=\"job-1\",service_name=\"svc\"\x7d" ∧
    (clientJson.SetServiceName (exClientWith (LabelBuilder (some exBraceLabel) "").1)
        "svc").config.Labels ≠
      "\x7bhost=\"loki:3100\x7d\",source=\"app\",job=\"job-1\",service_name=\"svc\"\x7d" ∧
    (clientJson.SetVersion (exClientWith (LabelBuilder (some exBraceLabel) "").1)
        "1.2.3").config.Labels ≠
      "\x7bhost=\"loki:3100\x7d\",source=\"app\",job=\"job-1\",version=\"1.2.3\"\x7d" ∧
    (clientProto.SetServiceName (exClientWith (LabelBuilder (some exBraceLabel) "").1)
        "svc").config.Labels ≠
      "\x7bhost=\"loki:3100\x7d\",source=\"app\",job=\"job-1\",service_name=\"svc\"\x7d" ∧
    (clientProto.SetVersion (exClientWith (LabelBuilder (some exBraceLabel) "").1)
        "1.2.3").config.Labels ≠
      "\x7bhost=\"loki:3100\x7d\",source=\"app\",job=\"job-1\",version=\"1.2.3\"\x7d" := by
  decide

end Promtail
